import Mathlib

/-!
Verification development for the SimpleWebInterface chat client.

The definitions below are shallow embeddings of the Rust sources:
  src/models.rs                  - data model (Message, ChatSession, settings, DTOs)
  src/app.rs                     - run_chat (streaming decoder loop, non-streaming
                                   commit, publish closure), on_select_chat
  src/services/document_service.rs - build_manual_context_with_display
  src/lib.rs                     - earlier snapshot of the same app; it is the
                                   snapshot that implements message editing
                                   (on_edit_save) and is embedded for that part.

Rust f64/f32 values appearing in the data model (timestamps, timings,
temperature) are represented as exact decimal rationals (Rat); no verified
property depends on float rounding.  Machine-integer ranges (i64, u32) are
checked explicitly where serde would check them.
-/

namespace SWI

/-! ## Data model (src/models.rs) -/

/-- UsageInfo (models.rs): token counts, all usize. -/
structure UsageInfo where
  prompt_tokens : Nat
  completion_tokens : Nat
  total_tokens : Nat
deriving DecidableEq, Repr

/-- TimingsInfo (models.rs): llama.cpp style timing block.  The three counters
are usize; the six rate/duration fields are f64, represented as Rat. -/
structure TimingsInfo where
  cache_n : Nat
  prompt_n : Nat
  prompt_ms : Rat
  prompt_per_token_ms : Rat
  prompt_per_second : Rat
  predicted_n : Nat
  predicted_ms : Rat
  predicted_per_token_ms : Rat
  predicted_per_second : Rat
deriving DecidableEq, Repr

/-- MessageMetrics (models.rs): per-message metrics, all fields optional. -/
structure MessageMetrics where
  usage : Option UsageInfo
  timings : Option TimingsInfo
  created : Option Int
  id : Option String
  model : Option String
  system_fingerprint : Option String
deriving DecidableEq, Repr

/-- MessageMetrics::default(): every field None. -/
def metricsDefault : MessageMetrics :=
  { usage := none, timings := none, created := none, id := none, model := none,
    system_fingerprint := none }

/-- Message (models.rs): role, content and (defaulted) metrics. -/
structure Message where
  role : String
  content : String
  metrics : MessageMetrics
deriving DecidableEq, Repr

/-- ChatSession (models.rs).  created_at is a JS millisecond timestamp (f64),
kept as Rat. -/
structure ChatSession where
  id : String
  title : String
  messages : List Message
  created_at : Rat
deriving DecidableEq, Repr

/-- SavedPrompt (models.rs). -/
structure SavedPrompt where
  id : String
  name : String
  content : String
deriving DecidableEq, Repr

/-- DocumentContextMode (models.rs). -/
inductive DocumentContextMode where
  | Manual
  | RAG
deriving DecidableEq, Repr

/-- AppSettings (models.rs). -/
structure AppSettings where
  system_prompt : String
  base_url : String
  selected_model : String
  stream_enabled : Bool
  saved_prompts : List SavedPrompt
  document_context_mode : DocumentContextMode
  show_metrics : Bool
deriving DecidableEq, Repr

/-- AppSettings::default() (models.rs impl Default). -/
def appSettingsDefault : AppSettings :=
  { system_prompt := "You are a helpful assistant."
    base_url := "http://localhost:8080"
    selected_model := "default"
    stream_enabled := true
    saved_prompts := []
    document_context_mode := DocumentContextMode.RAG
    show_metrics := true }

/-- ChatRequest (models.rs): the outgoing completion request body.
temperature is f32, represented as Rat. -/
structure ChatRequest where
  messages : List Message
  model : String
  temperature : Rat
  stream : Bool
deriving DecidableEq, Repr

/-- ChatChoice (models.rs): one choice of a non-streaming response. -/
structure ChatChoice where
  message : Message
  finish_reason : Option String
deriving DecidableEq, Repr

/-- ChatResponse (models.rs): full non-streaming response envelope. -/
structure ChatResponse where
  choices : List ChatChoice
  usage : Option UsageInfo
  timings : Option TimingsInfo
  id : Option String
  created : Option Int
  model : Option String
  system_fingerprint : Option String
deriving DecidableEq, Repr

/-- StreamDelta (models.rs): optional content fragment of a streamed chunk. -/
structure StreamDelta where
  content : Option String
deriving DecidableEq, Repr

/-- StreamChoice (models.rs). index is u32. -/
structure StreamChoice where
  delta : StreamDelta
  finish_reason : Option String
  index : Option Nat
deriving DecidableEq, Repr

/-- StreamResponse (models.rs): one parsed SSE data line. -/
structure StreamResponse where
  choices : List StreamChoice
  id : Option String
  created : Option Int
  model : Option String
  system_fingerprint : Option String
  usage : Option UsageInfo
  timings : Option TimingsInfo
deriving DecidableEq, Repr

/-- Document (document_service.rs / models.rs). upload_date is an f64
timestamp, kept as Rat. -/
structure Document where
  id : String
  filename : String
  file_type : String
  upload_date : Rat
  chunk_count : Nat
  total_tokens : Nat
  content_preview : String
  full_content : String
deriving DecidableEq, Repr

/-! ## Request construction (app.rs, run_chat lines 287-292)

The ChatRequest built inside the spawned task.  Note that at app.rs line 289
the model field is the hardcoded string below, with the intended
set.selected_model.clone() left in a trailing comment. -/

def hardcodedModel : String := "/root/models/Strand-Rust-Coder-14B-v1"

/-- The request body built by run_chat (app.rs 287-292). -/
def buildChatRequest (set : AppSettings) (llm_messages : List Message) : ChatRequest :=
  { messages := llm_messages
    model := hardcodedModel
    temperature := (7 : Rat) / 10
    stream := set.stream_enabled }

/-! ## Non-streaming commit (app.rs, run_chat lines 390-408)

The branch taken when set.stream_enabled is false, applied to the parsed
ChatResponse.  It appends choices.first() (if any) with the envelope metrics
attached and publishes once.  The cancellation flag is NOT read anywhere on
this path (contrast src/lib.rs line 413, the earlier snapshot, which guards
the commit with the flag); the cancel parameter below is carried to record
that the result does not depend on it. -/

def nonStreamingFinish (_cancel : Bool) (history : List Message)
    (json : ChatResponse) : Option (List Message) :=
  match json.choices with
  | [] => none
  | choice :: _ =>
      some (history ++
        [{ choice.message with
             metrics :=
               { usage := json.usage, timings := json.timings,
                 created := json.created, id := json.id, model := json.model,
                 system_fingerprint := json.system_fingerprint } }])

/-! ## Publish closure (app.rs, run_chat lines 294-305)

The update closure captured by the async task.  It rewrites the target
session's message list in the shared collection and, when a title was derived
at send time (title_override), forces the title back to that derived value on
every publish, whatever the session's current title is. -/

/-- Mutate only the first element satisfying p, like Rust iter_mut().find. -/
def updateFirst (p : ChatSession → Bool) (f : ChatSession → ChatSession) :
    List ChatSession → List ChatSession
  | [] => []
  | c :: cs => if p c then f c :: cs else c :: updateFirst p f cs

/-- The update closure of run_chat (app.rs 294-305). -/
def updateClosure (cid : String) (title_override : Option String)
    (chats_state : List ChatSession) (msgs : List Message) : List ChatSession :=
  updateFirst (fun c => c.id == cid)
    (fun c =>
      { c with
          messages := msgs
          title := match title_override with
                   | some t => t
                   | none => c.title })
    chats_state

/-! ## Transport-result dispatch (app.rs, run_chat lines 307-411)

The async task awaits the transport call; the outcome of that call and of the
subsequent body handling is one of:
  failed e      - chat_completion_request returned Err(e);
  streamOk      - Ok response, streaming branch (handled by streamRun below);
  fullOk body   - Ok response, non-streaming branch, body = parsed JSON
                  (none when resp.json() failed).
The Rust code is
    if let Ok(resp) = LlmService::chat_completion_request(..).await { .. }
    loading_state.set(false);
so the Err case falls through with no transcript change: nothing is appended
(in particular no system-role error message) and only the loading flag is
cleared.  Likewise a malformed non-streaming body is silently dropped.
The first component of the result is the transcript published by this
phase (none = nothing published), the second is the loading flag. -/

inductive TransportOutcome where
  | failed (e : String)
  | fullOk (body : Option ChatResponse)
deriving DecidableEq, Repr

def runChatOutcome (cancel : Bool) (history : List Message) :
    TransportOutcome → Option (List Message) × Bool
  | .failed _ => (none, false)
  | .fullOk none => (none, false)
  | .fullOk (some json) => (nonStreamingFinish cancel history json, false)

/-! ## Session selection (app.rs, on_select_chat lines 146-167) -/

/-- prev.messages.len() == 1 && prev.messages[0].role == "system"
(the index is guarded by the length check, so it is embedded as a match on a
singleton list). -/
def isEmptyChat (prev : ChatSession) : Bool :=
  prev.messages.length == 1 &&
    (match prev.messages with
     | m :: _ => m.role == "system"
     | [] => false)

/-- on_select_chat (app.rs 146-167): returns the new collection and the new
active id. -/
def on_select_chat (chats : List ChatSession) (current_id target_id : String) :
    List ChatSession × String :=
  if current_id == target_id then (chats, current_id)
  else
    let should_delete_prev :=
      match chats.find? (fun c => c.id == current_id) with
      | some prev => isEmptyChat prev
      | none => false
    let list := if should_delete_prev
                then chats.filter (fun c => !(c.id == current_id))
                else chats
    (list, target_id)

/-! ## Edit/branch engine (src/lib.rs, on_edit_save lines 566-577)

The snapshot in src/lib.rs is the one that implements message editing; its
Message type has no metrics field. -/

structure LibMessage where
  role : String
  content : String
deriving DecidableEq, Repr

/-- branched_history.last_mut() content replacement. -/
def setLastContentLib : List LibMessage → String → List LibMessage
  | [], _ => []
  | [m], txt => [{ m with content := txt }]
  | m :: ms, txt => m :: setLastContentLib ms txt

/-- on_edit_save (lib.rs 566-577): truncate to idx+1 (when idx is in range),
replace the content of the now-last message with the edit buffer, and hand the
result to run_chat_completion as the transcript to send. -/
def on_edit_save (msgs : List LibMessage) (idx : Nat) (edit_buffer : String) :
    List LibMessage :=
  let branched := if idx < msgs.length then msgs.take (idx + 1) else msgs
  setLastContentLib branched edit_buffer

/-! ## Manual document context (document_service.rs, lines 200-240) -/

/-- Substring test over character lists (Rust str::contains with a literal
pattern).  The empty pattern is contained in everything. -/
def containsChars (hay pat : List Char) : Bool :=
  if pat.isPrefixOf hay then true
  else
    match hay with
    | [] => false
    | _ :: t => containsChars t pat

def containsStr (hay pat : String) : Bool :=
  containsChars hay.toList pat.toList

/-- Rust String::replace: replace every non-overlapping occurrence, scanning
left to right.  Fuel is the length of the subject plus one, which is enough
because every step consumes at least one character of the subject. -/
def replaceCharsF : Nat → List Char → List Char → List Char → List Char
  | 0, s, _, _ => s
  | fuel + 1, s, pat, rep =>
      if pat ≠ [] ∧ pat.isPrefixOf s then
        rep ++ replaceCharsF fuel (s.drop pat.length) pat rep
      else
        match s with
        | [] => []
        | c :: t => c :: replaceCharsF fuel t pat rep

def replaceStr (s pat rep : String) : String :=
  String.mk (replaceCharsF (s.toList.length + 1) s.toList pat.toList rep.toList)

/-- get_document_content_by_id (document_service.rs 171-179): first document
with the id, if any. -/
def get_document_content_by_id (documents : List Document) (doc_id : String) :
    Option String :=
  (documents.find? (fun d => d.id == doc_id)).map (fun d => d.full_content)

/-- One iteration of the reference-scanning loop of
build_manual_context_with_display (document_service.rs 211-219): acc carries
(referenced_docs, current_query). -/
def scanStep (query : String) (acc : List String × String) (doc : Document) :
    List String × String :=
  let doc_ref := "@" ++ doc.id
  if containsStr query doc_ref && !(acc.1.contains doc.id) then
    (acc.1 ++ [doc.id],
     replaceStr acc.2 doc_ref ("[Document: " ++ doc.filename ++ "]"))
  else acc

/-- build_manual_context_with_display (document_service.rs 200-240).
First component: the context for the LLM; second: the cleaned display text. -/
def build_manual_context_with_display (documents : List Document)
    (query : String) : String × String :=
  if documents.isEmpty then ("", query)
  else
    let scanned := documents.foldl (scanStep query) ([], query)
    let referenced_docs := scanned.1
    let current_query := scanned.2
    let context := referenced_docs.foldl
      (fun ctx doc_id =>
        match get_document_content_by_id documents doc_id with
        | some doc_content =>
          match documents.find? (fun d => d.id == doc_id) with
          | some doc =>
              ctx ++ "=== Document: " ++ doc.filename ++ " (Type: " ++
                doc.file_type ++ ", Chunks: " ++ toString doc.chunk_count ++
                ") ===\n" ++ doc_content ++ "\n\n"
          | none => ctx
        | none => ctx)
      "Document context:\n\n"
    if referenced_docs.isEmpty then ("", query)
    else (context, current_query)

/-! ## UTF-8 lossy decoding (String::from_utf8_lossy, used per chunk at
app.rs line 326)

Standard maximal-subpart replacement: every maximal invalid subsequence,
including an incomplete sequence at the end of the chunk, becomes one
U+FFFD replacement character. -/

def replChar : Char := Char.ofNat 0xFFFD

/-- Decoder state: need = number of continuation bytes still expected
(0 = no sequence pending), acc = accumulated code-point bits, lo/hi = allowed
range for the next continuation byte (the first continuation byte of a 3- or
4-byte sequence has a restricted range; later ones are 0x80..0xBF). -/
structure Utf8State where
  acc : Nat
  need : Nat
  lo : Nat
  hi : Nat
deriving DecidableEq, Repr

def idleUtf8 : Utf8State := { acc := 0, need := 0, lo := 0, hi := 0 }

/-- Process one byte as the start of a sequence. -/
def utf8InitLead (b : Nat) : List Char × Utf8State :=
  if b < 128 then ([Char.ofNat b], idleUtf8)
  else if 194 ≤ b && b ≤ 223 then ([], { acc := b - 192, need := 1, lo := 128, hi := 191 })
  else if b = 224 then ([], { acc := 0, need := 2, lo := 160, hi := 191 })
  else if 225 ≤ b && b ≤ 236 then ([], { acc := b - 224, need := 2, lo := 128, hi := 191 })
  else if b = 237 then ([], { acc := 13, need := 2, lo := 128, hi := 159 })
  else if 238 ≤ b && b ≤ 239 then ([], { acc := b - 224, need := 2, lo := 128, hi := 191 })
  else if b = 240 then ([], { acc := 0, need := 3, lo := 144, hi := 191 })
  else if 241 ≤ b && b ≤ 243 then ([], { acc := b - 240, need := 3, lo := 128, hi := 191 })
  else if b = 244 then ([], { acc := 4, need := 3, lo := 128, hi := 143 })
  else ([replChar], idleUtf8)

/-- Process one byte.  An out-of-range byte while a sequence is pending emits
one replacement character for the invalid prefix and reprocesses the byte as a
fresh lead (maximal-subpart semantics). -/
def utf8Step (st : Utf8State) (b : Nat) : List Char × Utf8State :=
  if st.need = 0 then utf8InitLead b
  else if st.lo ≤ b && b ≤ st.hi then
    let acc2 := st.acc * 64 + (b - 128)
    if st.need = 1 then ([Char.ofNat acc2], idleUtf8)
    else ([], { acc := acc2, need := st.need - 1, lo := 128, hi := 191 })
  else
    let p := utf8InitLead b
    (replChar :: p.1, p.2)

/-- Run the decoder; a sequence left incomplete at the end of the chunk
becomes one replacement character. -/
def utf8Run (st : Utf8State) : List Nat → List Char
  | [] => if st.need = 0 then [] else [replChar]
  | b :: r => (utf8Step st b).1 ++ utf8Run (utf8Step st b).2 r

def utf8LossyDecode (bs : List Nat) : List Char := utf8Run idleUtf8 bs

/-- Standard UTF-8 encoding of one scalar value.  Used to state which byte
chunks are well-formed UTF-8 (equivalently: which chunk boundaries fall on
character boundaries). -/
def utf8EncodeChar (c : Char) : List Nat :=
  let n := c.toNat
  if n < 128 then [n]
  else if n < 2048 then [192 + n / 64, 128 + n % 64]
  else if n < 65536 then [224 + n / 4096, 128 + (n / 64) % 64, 128 + n % 64]
  else [240 + n / 262144, 128 + (n / 4096) % 64, 128 + (n / 64) % 64, 128 + n % 64]

def utf8Encode (cs : List Char) : List Nat := (cs.map utf8EncodeChar).flatten

/-! ## Buffer line extraction (app.rs lines 327-329)

The Rust loop repeatedly takes the text before the first newline as a line and
drains it (plus the newline) from the buffer.  splitLines computes, in one
pass, exactly the sequence of lines this loop extracts from a given buffer
content, together with the remaining (newline-free) buffer. -/

def splitLines : List Char → List (List Char) × List Char
  | [] => ([], [])
  | c :: rest =>
    let sl := splitLines rest
    if c = '\n' then ([] :: sl.1, sl.2)
    else
      match sl.1 with
      | [] => ([], c :: sl.2)
      | l :: ls => ((c :: l) :: ls, sl.2)

/-- Rust str::trim on the extracted line (app.rs 328).  Lean's
Char.isWhitespace covers space, tab, CR and LF, which is what the inputs here
contain. -/
def trimChars (l : List Char) : List Char :=
  ((l.dropWhile Char.isWhitespace).reverse.dropWhile Char.isWhitespace).reverse

/-! ## JSON values and parsing (serde_json::from_str, app.rs 331 and 375)

A recursive-descent JSON parser over character lists.  Numbers are kept as
exact decimal rationals together with a flag recording whether the literal
used a fraction or exponent (serde_json refuses float literals for integer
target types). -/

inductive Json where
  | null
  | bool (b : Bool)
  | num (q : Rat) (floatLit : Bool)
  | str (s : List Char)
  | arr (elems : List Json)
  | obj (members : List (List Char × Json))

def qChar : Char := Char.ofNat 34
def escChar : Char := Char.ofNat 92
def lbChar : Char := Char.ofNat 123
def rbChar : Char := Char.ofNat 125

def isJsonWs (c : Char) : Bool := c = ' ' || c = '\t' || c = '\n' || c = '\r'

def skipWs : List Char → List Char
  | [] => []
  | c :: r => if isJsonWs c then skipWs r else c :: r

def hexVal (c : Char) : Option Nat :=
  if '0' ≤ c ∧ c ≤ '9' then some (c.toNat - 48)
  else if 'a' ≤ c ∧ c ≤ 'f' then some (c.toNat - 87)
  else if 'A' ≤ c ∧ c ≤ 'F' then some (c.toNat - 55)
  else none

/-- Parse the body of a JSON string (after the opening quote), returning the
decoded characters and the rest of the input after the closing quote. -/
def parseStringBody : List Char → Option (List Char × List Char)
  | [] => none
  | c :: r =>
    if c = qChar then some ([], r)
    else if c = escChar then
      match r with
      | [] => none
      | e :: r2 =>
        let esc : Option Char :=
          if e = qChar then some qChar
          else if e = escChar then some escChar
          else if e = '/' then some '/'
          else if e = 'b' then some (Char.ofNat 8)
          else if e = 'f' then some (Char.ofNat 12)
          else if e = 'n' then some '\n'
          else if e = 'r' then some '\r'
          else if e = 't' then some '\t'
          else none
        match esc with
        | some ch => (parseStringBody r2).map (fun p => (ch :: p.1, p.2))
        | none =>
          if e = 'u' then
            match r2 with
            | h1 :: h2 :: h3 :: h4 :: r3 =>
              match hexVal h1, hexVal h2, hexVal h3, hexVal h4 with
              | some a, some b, some c2, some d =>
                (parseStringBody r3).map
                  (fun p => (Char.ofNat (((a * 16 + b) * 16 + c2) * 16 + d) :: p.1, p.2))
              | _, _, _, _ => none
            | _ => none
          else none
    else (parseStringBody r).map (fun p => (c :: p.1, p.2))

def isDigitC (c : Char) : Bool := '0' ≤ c && c ≤ '9'

def digitsToNat (acc : Nat) : List Char → Nat
  | [] => acc
  | c :: r => digitsToNat (acc * 10 + (c.toNat - 48)) r

/-- Optional fraction part. -/
def parseFrac (s : List Char) : Option (List Char × List Char × Bool) :=
  match s with
  | c :: r =>
    if c = '.' then
      let p := r.span isDigitC
      if p.1.isEmpty then none else some (p.1, p.2, true)
    else some ([], s, false)
  | [] => some ([], s, false)

/-- Optional exponent part. -/
def parseExp (s : List Char) : Option (Int × List Char × Bool) :=
  match s with
  | c :: r =>
    if c = 'e' ∨ c = 'E' then
      let sg : Int × List Char :=
        match r with
        | c2 :: r3 =>
          if c2 = '+' then (1, r3) else if c2 = '-' then (-1, r3) else (1, r)
        | [] => (1, r)
      let p := sg.2.span isDigitC
      if p.1.isEmpty then none
      else some (sg.1 * (digitsToNat 0 p.1 : Nat), p.2, true)
    else some (0, s, false)
  | [] => some (0, s, false)

def parseNumber (s : List Char) : Option ((Rat × Bool) × List Char) :=
  let sgn : Bool × List Char :=
    match s with
    | c :: r => if c = '-' then (true, r) else (false, s)
    | [] => (false, s)
  let ip := sgn.2.span isDigitC
  if ip.1.isEmpty then none
  else if 1 < ip.1.length ∧ ip.1.head? = some '0' then none
  else
    match parseFrac ip.2 with
    | none => none
    | some (fds, s3, hasFrac) =>
      match parseExp s3 with
      | none => none
      | some (ev, s4, hasExp) =>
        let m : Nat := digitsToNat (digitsToNat 0 ip.1) fds
        let scale : Int := ev - fds.length
        let mag : Rat :=
          if 0 ≤ scale then (m : Rat) * (10 : Rat) ^ scale.toNat
          else (m : Rat) / (10 : Rat) ^ (-scale).toNat
        some ((if sgn.1 then -mag else mag, hasFrac || hasExp), s4)

mutual

def parseValue : Nat → List Char → Option (Json × List Char)
  | 0, _ => none
  | fuel + 1, s =>
    match skipWs s with
    | [] => none
    | c :: r =>
      if c = qChar then
        match parseStringBody r with
        | some (cs, rest) => some (Json.str cs, rest)
        | none => none
      else if c = lbChar then parseObjBody fuel r
      else if c = '[' then parseArrBody fuel r
      else if c = 't' then
        match r with
        | 'r' :: 'u' :: 'e' :: rest => some (Json.bool true, rest)
        | _ => none
      else if c = 'f' then
        match r with
        | 'a' :: 'l' :: 's' :: 'e' :: rest => some (Json.bool false, rest)
        | _ => none
      else if c = 'n' then
        match r with
        | 'u' :: 'l' :: 'l' :: rest => some (Json.null, rest)
        | _ => none
      else if c = '-' ∨ isDigitC c then
        match parseNumber (c :: r) with
        | some ((q, fl), rest) => some (Json.num q fl, rest)
        | none => none
      else none

def parseArrElems : Nat → List Char → Option (List Json × List Char)
  | 0, _ => none
  | fuel + 1, s =>
    match parseValue fuel s with
    | none => none
    | some (v, s2) =>
      match skipWs s2 with
      | c :: r =>
        if c = ',' then
          match parseArrElems fuel r with
          | some (vs, rest) => some (v :: vs, rest)
          | none => none
        else if c = ']' then some ([v], r)
        else none
      | [] => none

def parseArrBody : Nat → List Char → Option (Json × List Char)
  | 0, _ => none
  | fuel + 1, s =>
    match skipWs s with
    | c :: r =>
      if c = ']' then some (Json.arr [], r)
      else
        match parseArrElems fuel (c :: r) with
        | some (vs, rest) => some (Json.arr vs, rest)
        | none => none
    | [] => none

def parseObjMembers : Nat → List Char → Option (List (List Char × Json) × List Char)
  | 0, _ => none
  | fuel + 1, s =>
    match skipWs s with
    | c :: r =>
      if c = qChar then
        match parseStringBody r with
        | some (key, s2) =>
          match skipWs s2 with
          | c2 :: r2 =>
            if c2 = ':' then
              match parseValue fuel r2 with
              | some (v, s3) =>
                match skipWs s3 with
                | c3 :: r3 =>
                  if c3 = ',' then
                    match parseObjMembers fuel r3 with
                    | some (ms, rest) => some ((key, v) :: ms, rest)
                    | none => none
                  else if c3 = rbChar then some ([(key, v)], r3)
                  else none
                | [] => none
              | none => none
            else none
          | [] => none
        | none => none
      else none
    | [] => none

def parseObjBody : Nat → List Char → Option (Json × List Char)
  | 0, _ => none
  | fuel + 1, s =>
    match skipWs s with
    | c :: r =>
      if c = rbChar then some (Json.obj [], r)
      else
        match parseObjMembers fuel (c :: r) with
        | some (ms, rest) => some (Json.obj ms, rest)
        | none => none
    | [] => none

end

/-- Parse a complete JSON document: one value, then only whitespace.
The fuel bound suffices since every three nested calls consume a character. -/
def parseJson (s : List Char) : Option Json :=
  match parseValue (3 * s.length + 3) s with
  | some (v, rest) => if (skipWs rest).isEmpty then some v else none
  | none => none

/-! ## serde-shaped extraction of the DTOs from parsed JSON -/

def jLookup (kvs : List (List Char × Json)) (key : String) : Option Json :=
  (kvs.find? (fun kv => kv.1 == key.toList)).map (fun kv => kv.2)

/-- Option(String) field: absent or null gives None, a string gives Some,
anything else fails the whole deserialization. -/
def getOptString : Option Json → Option (Option String)
  | none => some none
  | some Json.null => some none
  | some (Json.str s) => some (some (String.mk s))
  | some _ => none

/-- usize from a JSON number: integer literal, nonnegative. -/
def getUsize : Json → Option Nat
  | Json.num q fl =>
    if fl then none
    else if q.den = 1 ∧ 0 ≤ q.num then some q.num.toNat else none
  | _ => none

def getReqUsize (o : Option Json) : Option Nat := o.bind getUsize

def getF64 : Json → Option Rat
  | Json.num q _ => some q
  | _ => none

def getReqF64 (o : Option Json) : Option Rat := o.bind getF64

/-- Option(i64). -/
def getOptI64 : Option Json → Option (Option Int)
  | none => some none
  | some Json.null => some none
  | some (Json.num q fl) =>
    if fl then none
    else if q.den = 1 ∧ -(2 ^ 63) ≤ q.num ∧ q.num < 2 ^ 63 then some (some q.num)
    else none
  | some _ => none

/-- Option(u32). -/
def getOptU32 : Option Json → Option (Option Nat)
  | none => some none
  | some Json.null => some none
  | some (Json.num q fl) =>
    if fl then none
    else if q.den = 1 ∧ 0 ≤ q.num ∧ q.num < 2 ^ 32 then some (some q.num.toNat)
    else none
  | some _ => none

def decodeUsage : Json → Option UsageInfo
  | Json.obj kvs => do
      let pt ← getReqUsize (jLookup kvs "prompt_tokens")
      let ct ← getReqUsize (jLookup kvs "completion_tokens")
      let tt ← getReqUsize (jLookup kvs "total_tokens")
      pure { prompt_tokens := pt, completion_tokens := ct, total_tokens := tt }
  | _ => none

def decodeOptUsage : Option Json → Option (Option UsageInfo)
  | none => some none
  | some Json.null => some none
  | some j => (decodeUsage j).map some

def decodeTimings : Json → Option TimingsInfo
  | Json.obj kvs => do
      let cn ← getReqUsize (jLookup kvs "cache_n")
      let pn ← getReqUsize (jLookup kvs "prompt_n")
      let pms ← getReqF64 (jLookup kvs "prompt_ms")
      let pptm ← getReqF64 (jLookup kvs "prompt_per_token_ms")
      let pps ← getReqF64 (jLookup kvs "prompt_per_second")
      let dn ← getReqUsize (jLookup kvs "predicted_n")
      let dms ← getReqF64 (jLookup kvs "predicted_ms")
      let dptm ← getReqF64 (jLookup kvs "predicted_per_token_ms")
      let dps ← getReqF64 (jLookup kvs "predicted_per_second")
      pure { cache_n := cn, prompt_n := pn, prompt_ms := pms,
             prompt_per_token_ms := pptm, prompt_per_second := pps,
             predicted_n := dn, predicted_ms := dms,
             predicted_per_token_ms := dptm, predicted_per_second := dps }
  | _ => none

def decodeOptTimings : Option Json → Option (Option TimingsInfo)
  | none => some none
  | some Json.null => some none
  | some j => (decodeTimings j).map some

def decodeStreamDelta : Json → Option StreamDelta
  | Json.obj kvs => (getOptString (jLookup kvs "content")).map (fun c => { content := c })
  | _ => none

def decodeStreamChoice : Json → Option StreamChoice
  | Json.obj kvs => do
      let d ← match jLookup kvs "delta" with
              | none => some { content := none }
              | some j => decodeStreamDelta j
      let fr ← getOptString (jLookup kvs "finish_reason")
      let ix ← getOptU32 (jLookup kvs "index")
      pure { delta := d, finish_reason := fr, index := ix }
  | _ => none

def decodeStreamResponse : Json → Option StreamResponse
  | Json.obj kvs => do
      let cs ← match jLookup kvs "choices" with
               | some (Json.arr xs) => xs.mapM decodeStreamChoice
               | _ => none
      let i ← getOptString (jLookup kvs "id")
      let cr ← getOptI64 (jLookup kvs "created")
      let mo ← getOptString (jLookup kvs "model")
      let sf ← getOptString (jLookup kvs "system_fingerprint")
      let us ← decodeOptUsage (jLookup kvs "usage")
      let ti ← decodeOptTimings (jLookup kvs "timings")
      pure { choices := cs, id := i, created := cr, model := mo,
             system_fingerprint := sf, usage := us, timings := ti }
  | _ => none

/-- serde_json::from_str::(StreamResponse) over a character list. -/
def parseStreamResponse (payload : List Char) : Option StreamResponse :=
  (parseJson payload).bind decodeStreamResponse

/-! ## The streaming loop of run_chat (app.rs lines 311-389) -/

structure StreamState where
  history : List Message
  final_usage : Option UsageInfo
  final_timings : Option TimingsInfo
  final_id : Option String
  final_created : Option Int
  final_model : Option String
  final_fingerprint : Option String
deriving DecidableEq, Repr

def dataMarker : List Char := "data: ".toList
def doneMarker : List Char := "data: [DONE]".toList

/-- history.last_mut() content push_str (app.rs 347-348). -/
def appendToLast : List Message → String → List Message
  | [], _ => []
  | [m], txt => [{ m with content := m.content ++ txt }]
  | m :: ms, txt => m :: appendToLast ms txt

/-- One extracted, trimmed line of the stream (app.rs 330-353).
Returns none exactly when the Rust code panics: a successfully parsed
StreamResponse whose choices vector is empty makes json.choices[0]
(app.rs 346) an out-of-bounds index. -/
def processLine (st : StreamState) (line : List Char) : Option StreamState :=
  if dataMarker.isPrefixOf line && !(line == doneMarker) then
    match parseStreamResponse (line.drop 6) with
    | some json =>
      let st1 := { st with final_id := json.id, final_created := json.created,
                           final_model := json.model,
                           final_fingerprint := json.system_fingerprint }
      let st2 := match json.usage with
                 | some u => { st1 with final_usage := some u }
                 | none => st1
      let st3 := match json.timings with
                 | some t => { st2 with final_timings := some t }
                 | none => st2
      match json.choices with
      | [] => none
      | ch :: _ =>
        match ch.delta.content with
        | some txt => some { st3 with history := appendToLast st3.history txt }
        | none => some st3
    | none => some st
  else some st

def processLines : StreamState → List (List Char) → Option StreamState
  | st, [] => some st
  | st, l :: ls =>
    match processLine st (trimChars l) with
    | none => none
    | some st2 => processLines st2 ls

/-- The inner while-let drain loop (app.rs 327-354) run to quiescence on a
buffer: process every complete line, keep the newline-free remainder. -/
def drainBuf (buf : List Char) (st : StreamState) :
    Option (List Char × StreamState) :=
  match processLines st (splitLines buf).1 with
  | none => none
  | some st2 => some ((splitLines buf).2, st2)

/-- Receiving one successfully decoded chunk (app.rs 325-329). -/
def feedChunk (acc : Option (List Char × StreamState))
    (chunkChars : List Char) : Option (List Char × StreamState) :=
  match acc with
  | none => none
  | some (buf, st) => drainBuf (buf ++ chunkChars) st

def setLastMetrics : List Message → MessageMetrics → List Message
  | [], _ => []
  | [m], mm => [{ m with metrics := mm }]
  | m :: ms, mm => m :: setLastMetrics ms mm

def setLastUsage : List Message → UsageInfo → List Message
  | [], _ => []
  | [m], u => [{ m with metrics := { m.metrics with usage := some u } }]
  | m :: ms, u => m :: setLastUsage ms u

def setLastTimings : List Message → TimingsInfo → List Message
  | [], _ => []
  | [m], t => [{ m with metrics := { m.metrics with timings := some t } }]
  | m :: ms, t => m :: setLastTimings ms t

/-- After the loop (app.rs 358-389): attach the captured metrics to the last
message, then best-effort parse of whatever is left unterminated in the
buffer, merging any usage/timings found there. -/
def finalizeStream (buf : List Char) (st : StreamState) : List Message :=
  let hist := setLastMetrics st.history
    { usage := st.final_usage, timings := st.final_timings,
      created := st.final_created, id := st.final_id, model := st.final_model,
      system_fingerprint := st.final_fingerprint }
  if buf.isEmpty then hist
  else
    match parseStreamResponse buf with
    | some json =>
      let h1 := match json.usage with
                | some u => setLastUsage hist u
                | none => hist
      let h2 := match json.timings with
                | some t => setLastTimings h1 t
                | none => h1
      h2
    | none => hist

def emptyAssistant : Message :=
  { role := "assistant", content := "", metrics := metricsDefault }

def initialStreamState (history0 : List Message) : StreamState :=
  { history := history0 ++ [emptyAssistant], final_usage := none,
    final_timings := none, final_id := none, final_created := none,
    final_model := none, final_fingerprint := none }

/-- The streaming branch of run_chat (app.rs 311-389) on a sequence of byte
chunks.  The cancellation flag is polled once per received chunk (app.rs 324);
it is modelled here as the constant value it has throughout the run.  The
result is the final transcript, or none if the loop panicked. -/
def streamRun (cancel : Bool) (history0 : List Message)
    (chunks : List (List Nat)) : Option (List Message) :=
  let fed := chunks.foldl
    (fun acc ch => if cancel then acc else feedChunk acc (utf8LossyDecode ch))
    (some ([], initialStreamState history0))
  match fed with
  | none => none
  | some (buf, st) => some (finalizeStream buf st)

/-- ASCII bytes of a string (used only on ASCII literals in statements). -/
def strBytes (s : String) : List Nat := s.toList.map Char.toNat

/-- Content of the last message of a run result. -/
def lastContent (r : Option (List Message)) : Option String :=
  r.bind (fun h => h.getLast?.map (fun m => m.content))

/-! ## Concrete fixtures used in the statements below -/

def sysMsg : Message :=
  { role := "system", content := "You are a helpful assistant",
    metrics := metricsDefault }

def userHello : Message :=
  { role := "user", content := "Hello", metrics := metricsDefault }

/-- A transcript ending in the new user message. -/
def histUC : List Message := [sysMsg, userHello]

/-- A well-formed non-streaming response with one assistant choice. -/
def respHi : ChatResponse :=
  { choices := [{ message := { role := "assistant", content := "Hi",
                               metrics := metricsDefault },
                  finish_reason := none }],
    usage := none, timings := none, id := none, created := none,
    model := none, system_fingerprint := none }

/-- Bytes of a complete sentinel line followed by a complete delta line. -/
def doneThenDeltaBytes : List Nat :=
  strBytes "data: [DONE]\ndata: \x7b\"choices\":[\x7b\"delta\":\x7b\"content\":\"X\"\x7d\x7d]\x7d\n"

/-- Bytes of the sentinel line alone (newline-terminated). -/
def doneLineBytes : List Nat := strBytes "data: [DONE]\n"

/-- Bytes of one delta line whose content is the two-byte UTF-8 character
U+00E9. -/
def eAcuteLine : List Nat :=
  strBytes "data: \x7b\"choices\":[\x7b\"delta\":\x7b\"content\":\"" ++
    [195, 169] ++ strBytes "\"\x7d\x7d]\x7d\n"

/-- The same bytes split between the two bytes of the U+00E9 sequence. -/
def eAcuteChunk1 : List Nat :=
  strBytes "data: \x7b\"choices\":[\x7b\"delta\":\x7b\"content\":\"" ++ [195]

def eAcuteChunk2 : List Nat := [169] ++ strBytes "\"\x7d\x7d]\x7d\n"

/-- The same bytes split at a UTF-8 character boundary, just after the
two-byte U+00E9 sequence. -/
def eAcuteSplitA : List Nat :=
  strBytes "data: \x7b\"choices\":[\x7b\"delta\":\x7b\"content\":\"" ++ [195, 169]

def eAcuteSplitB : List Nat := strBytes "\"\x7d\x7d]\x7d\n"

/-- Character lists whose UTF-8 encodings are the fixtures above. -/
def eAcuteLineChars : List Char :=
  "data: \x7b\"choices\":[\x7b\"delta\":\x7b\"content\":\"é\"\x7d\x7d]\x7d\n".toList

def eAcuteSplitAChars : List Char :=
  "data: \x7b\"choices\":[\x7b\"delta\":\x7b\"content\":\"é".toList

def eAcuteSplitBChars : List Char := "\"\x7d\x7d]\x7d\n".toList

/-- JSON payload with a well-formed but empty choices array. -/
def emptyChoicesPayload : List Char := "\x7b\"choices\":[]\x7d".toList

/-- The corresponding stream line. -/
def emptyChoicesLine : List Char := "data: \x7b\"choices\":[]\x7d".toList

/-- A session whose title the user changed away from the placeholder. -/
def customSess : ChatSession :=
  { id := "s1", title := "My Custom Title", messages := [], created_at := 0 }

/-- The stored document of the manual-context scenario. -/
def notesDoc : Document :=
  { id := "doc123", filename := "notes.txt", file_type := "txt",
    upload_date := 0, chunk_count := 1, total_tokens := 5,
    content_preview := "The full document content",
    full_content := "The full document content" }

def libA : LibMessage := { role := "system", content := "sys" }

def libB : LibMessage := { role := "user", content := "first question" }

def libC : LibMessage := { role := "assistant", content := "first answer" }

/-- A freshly created session: exactly the system message. -/
def sysOnlySess : ChatSession :=
  { id := "a", title := "New Chat", messages := [sysMsg], created_at := 0 }

/-- A session with real conversation content. -/
def talkedSess : ChatSession :=
  { id := "b", title := "T", messages := [sysMsg, userHello], created_at := 0 }

/-! ## Helper lemmas -/

theorem utf8_ascii_append (a : List Nat) (bs : List Nat)
    (h : ∀ x ∈ a, x < 128) :
    utf8LossyDecode (a ++ bs) =
      a.map (fun n => Char.ofNat n) ++ utf8LossyDecode bs := by
  unfold utf8LossyDecode
  induction a with
  | nil => simp
  | cons x a ih =>
    have hx : x < 128 := h x (by simp)
    have ha : ∀ y ∈ a, y < 128 := fun y hy => h y (by simp [hy])
    have hstep : utf8Step idleUtf8 x = ([Char.ofNat x], idleUtf8) := by
      simp [utf8Step, idleUtf8, utf8InitLead, hx]
    simp [utf8Run, hstep, ih ha]

theorem utf8_ascii (a : List Nat) (h : ∀ x ∈ a, x < 128) :
    utf8LossyDecode a = a.map (fun n => Char.ofNat n) := by
  have h2 := utf8_ascii_append a [] h
  simpa [utf8LossyDecode, utf8Run, idleUtf8] using h2

theorem utf8_ascii_flatten (cs : List (List Nat))
    (h : ∀ ch ∈ cs, ∀ b ∈ ch, b < 128) :
    (cs.map utf8LossyDecode).flatten =
      cs.flatten.map (fun n => Char.ofNat n) := by
  induction cs with
  | nil => simp
  | cons c cs ih =>
    have hc : ∀ b ∈ c, b < 128 := h c (by simp)
    have hcs : ∀ ch ∈ cs, ∀ b ∈ ch, b < 128 := fun ch hch => h ch (by simp [hch])
    simp [utf8_ascii c hc, ih hcs]

theorem utf8Step_idle (b : Nat) : utf8Step idleUtf8 b = utf8InitLead b := by
  simp [utf8Step, idleUtf8]

theorem utf8InitLead3 (n : Nat) (h1 : 2048 ≤ n) (h2 : n < 65536)
    (hs : ¬ (55296 ≤ n ∧ n < 57344)) :
    ∃ lo hi, utf8InitLead (224 + n / 4096) =
        ([], { acc := n / 4096, need := 2, lo := lo, hi := hi }) ∧
      lo ≤ 128 + (n / 64) % 64 ∧ 128 + (n / 64) % 64 ≤ hi := by
  have ha : ¬ (224 + n / 4096 < 128) := by omega
  have hb : ¬ (224 + n / 4096 ≤ 223) := by omega
  by_cases hc1 : n < 4096
  · refine ⟨160, 191, ?_, by omega, by omega⟩
    have he : 224 + n / 4096 = 224 := by omega
    have hz : n / 4096 = 0 := by omega
    rw [he]
    simp [utf8InitLead, hz]
  · by_cases hc2 : n < 53248
    · refine ⟨128, 191, ?_, by omega, by omega⟩
      have hne : ¬ (224 + n / 4096 = 224) := by omega
      have hr : 225 ≤ 224 + n / 4096 ∧ 224 + n / 4096 ≤ 236 := by omega
      simp [utf8InitLead, ha, hb, hne, hr.1, hr.2]
    · by_cases hc3 : n < 55296
      · refine ⟨128, 159, ?_, by omega, by omega⟩
        have he : 224 + n / 4096 = 237 := by omega
        have hz : n / 4096 = 13 := by omega
        rw [he]
        simp [utf8InitLead, hz]
      · refine ⟨128, 191, ?_, by omega, by omega⟩
        have hge : 57344 ≤ n := by omega
        have hne : ¬ (224 + n / 4096 = 224) := by omega
        have hne2 : ¬ (224 + n / 4096 ≤ 236) := by omega
        have hne3 : ¬ (224 + n / 4096 = 237) := by omega
        have hr : 238 ≤ 224 + n / 4096 ∧ 224 + n / 4096 ≤ 239 := by omega
        simp [utf8InitLead, ha, hb, hne, hne2, hne3, hr.1, hr.2]

theorem utf8InitLead4 (n : Nat) (h1 : 65536 ≤ n) (h2 : n < 1114112) :
    ∃ lo hi, utf8InitLead (240 + n / 262144) =
        ([], { acc := n / 262144, need := 3, lo := lo, hi := hi }) ∧
      lo ≤ 128 + (n / 4096) % 64 ∧ 128 + (n / 4096) % 64 ≤ hi := by
  have ha : ¬ (240 + n / 262144 < 128) := by omega
  have hb : ¬ (240 + n / 262144 ≤ 223) := by omega
  have hb2 : ¬ (240 + n / 262144 ≤ 239) := by omega
  by_cases hc1 : n < 262144
  · refine ⟨144, 191, ?_, by omega, by omega⟩
    have he : 240 + n / 262144 = 240 := by omega
    have hz : n / 262144 = 0 := by omega
    rw [he]
    simp [utf8InitLead, hz]
  · by_cases hc2 : n < 1048576
    · refine ⟨128, 191, ?_, by omega, by omega⟩
      have hne : ¬ (240 + n / 262144 = 240) := by omega
      have hne224 : ¬ (240 + n / 262144 = 224) := by omega
      have hne236 : ¬ (225 ≤ 240 + n / 262144 ∧ 240 + n / 262144 ≤ 236) := by omega
      have hne237 : ¬ (240 + n / 262144 = 237) := by omega
      have hne239 : ¬ (238 ≤ 240 + n / 262144 ∧ 240 + n / 262144 ≤ 239) := by omega
      have hr : 241 ≤ 240 + n / 262144 ∧ 240 + n / 262144 ≤ 243 := by omega
      simp [utf8InitLead, ha, hb, hb2, hne, hne224, hne236, hne237, hne239, hr.1, hr.2]
    · refine ⟨128, 143, ?_, by omega, by omega⟩
      have he : 240 + n / 262144 = 244 := by omega
      have hz : n / 262144 = 4 := by omega
      rw [he]
      simp [utf8InitLead, hz]

theorem utf8Run_encodeChar (c : Char) (bs : List Nat) :
    utf8Run idleUtf8 (utf8EncodeChar c ++ bs) = c :: utf8Run idleUtf8 bs := by
  have hv : c.toNat < 55296 ∨ (57344 ≤ c.toNat ∧ c.toNat < 1114112) := by
    rcases c.valid with h | ⟨h1, h2⟩
    · left; exact h
    · right; exact ⟨h1, h2⟩
  have hofn : Char.ofNat c.toNat = c := Char.ofNat_toNat c
  set n := c.toNat with hn
  unfold utf8EncodeChar
  rw [← hn]
  by_cases h1 : n < 128
  · have hstep : utf8Step idleUtf8 n = ([Char.ofNat n], idleUtf8) := by
      rw [utf8Step_idle]
      simp [utf8InitLead, h1]
    simp [h1, utf8Run, hstep, hofn]
  · by_cases h2 : n < 2048
    · have hstep1 : utf8Step idleUtf8 (192 + n / 64) =
          ([], { acc := n / 64, need := 1, lo := 128, hi := 191 }) := by
        rw [utf8Step_idle]
        have ha : ¬ (192 + n / 64 < 128) := by omega
        have hb : (194 ≤ 192 + n / 64 && 192 + n / 64 ≤ 223) = true := by
          simp only [Bool.and_eq_true, decide_eq_true_eq]
          omega
        simp [utf8InitLead, ha, hb, Utf8State.mk.injEq]
      have hstep2 : utf8Step { acc := n / 64, need := 1, lo := 128, hi := 191 }
          (128 + n % 64) = ([Char.ofNat n], idleUtf8) := by
        have hcond : 128 + n % 64 ≤ 191 := by omega
        have hval : n / 64 * 64 + n % 64 = n := by omega
        simp [utf8Step, hcond, hval]
      simp [h1, h2, utf8Run, hstep1, hstep2, hofn]
    · by_cases h3 : n < 65536
      · have hs : ¬ (55296 ≤ n ∧ n < 57344) := by
          rcases hv with h | ⟨ha, hb⟩
          · omega
          · omega
        obtain ⟨lo, hi, hinit, hlo, hhi⟩ := utf8InitLead3 n (by omega) h3 hs
        have hstep1 : utf8Step idleUtf8 (224 + n / 4096) =
            ([], { acc := n / 4096, need := 2, lo := lo, hi := hi }) := by
          rw [utf8Step_idle, hinit]
        have hstep2 : utf8Step { acc := n / 4096, need := 2, lo := lo, hi := hi }
            (128 + (n / 64) % 64) =
            ([], { acc := n / 64, need := 1, lo := 128, hi := 191 }) := by
          have hacc : n / 4096 * 64 + (n / 64) % 64 = n / 64 := by omega
          simp [utf8Step, hlo, hhi, Utf8State.mk.injEq, hacc]
        have hstep3 : utf8Step { acc := n / 64, need := 1, lo := 128, hi := 191 }
            (128 + n % 64) = ([Char.ofNat n], idleUtf8) := by
          have hcond : 128 + n % 64 ≤ 191 := by omega
          have hval : n / 64 * 64 + n % 64 = n := by omega
          simp [utf8Step, hcond, hval]
        simp [h1, h2, h3, utf8Run, hstep1, hstep2, hstep3, hofn]
      · have h4 : n < 1114112 := by
          rcases hv with h | ⟨ha, hb⟩
          · omega
          · omega
        obtain ⟨lo, hi, hinit, hlo, hhi⟩ := utf8InitLead4 n (by omega) h4
        have hstep1 : utf8Step idleUtf8 (240 + n / 262144) =
            ([], { acc := n / 262144, need := 3, lo := lo, hi := hi }) := by
          rw [utf8Step_idle, hinit]
        have hstep2 : utf8Step { acc := n / 262144, need := 3, lo := lo, hi := hi }
            (128 + (n / 4096) % 64) =
            ([], { acc := n / 4096, need := 2, lo := 128, hi := 191 }) := by
          have hacc : n / 262144 * 64 + (n / 4096) % 64 = n / 4096 := by omega
          simp [utf8Step, hlo, hhi, Utf8State.mk.injEq, hacc]
        have hstep3 : utf8Step { acc := n / 4096, need := 2, lo := 128, hi := 191 }
            (128 + (n / 64) % 64) =
            ([], { acc := n / 64, need := 1, lo := 128, hi := 191 }) := by
          have hcond : 128 + (n / 64) % 64 ≤ 191 := by omega
          have hacc : n / 4096 * 64 + (n / 64) % 64 = n / 64 := by omega
          simp [utf8Step, hcond, Utf8State.mk.injEq, hacc]
        have hstep4 : utf8Step { acc := n / 64, need := 1, lo := 128, hi := 191 }
            (128 + n % 64) = ([Char.ofNat n], idleUtf8) := by
          have hcond : 128 + n % 64 ≤ 191 := by omega
          have hval : n / 64 * 64 + n % 64 = n := by omega
          simp [utf8Step, hcond, hval]
        simp [h1, h2, h3, utf8Run, hstep1, hstep2, hstep3, hstep4, hofn]

theorem utf8Run_encode_append (cs : List Char) (bs : List Nat) :
    utf8Run idleUtf8 (utf8Encode cs ++ bs) = cs ++ utf8Run idleUtf8 bs := by
  induction cs with
  | nil => simp [utf8Encode]
  | cons c cs ih =>
    have he : utf8Encode (c :: cs) = utf8EncodeChar c ++ utf8Encode cs := by
      simp [utf8Encode]
    rw [he, List.append_assoc, utf8Run_encodeChar, ih]
    rfl

theorem utf8_decode_encode (cs : List Char) :
    utf8LossyDecode (utf8Encode cs) = cs := by
  have h := utf8Run_encode_append cs []
  simpa [utf8LossyDecode, utf8Run, idleUtf8] using h

/-- For chunkings into well-formed UTF-8 chunks, per-chunk lossy decoding
agrees with decoding the concatenation. -/
theorem utf8_valid_flatten (chunks : List (List Nat))
    (h : ∀ ch ∈ chunks, ∃ cs, ch = utf8Encode cs) :
    (chunks.map utf8LossyDecode).flatten = utf8LossyDecode chunks.flatten := by
  induction chunks with
  | nil => simp [utf8LossyDecode, utf8Run, idleUtf8]
  | cons ch chs ih =>
    obtain ⟨cs, hcs⟩ := h ch (by simp)
    have hrest : ∀ x ∈ chs, ∃ cs2, x = utf8Encode cs2 :=
      fun x hx => h x (by simp [hx])
    subst hcs
    simp only [List.map_cons, List.flatten_cons]
    rw [ih hrest, utf8_decode_encode]
    show cs ++ utf8LossyDecode chs.flatten =
      utf8LossyDecode (utf8Encode cs ++ chs.flatten)
    rw [utf8LossyDecode, utf8LossyDecode, utf8Run_encode_append]

theorem splitLines_line (l : List Char) (t : List Char) (h : '\n' ∉ l) :
    splitLines (l ++ '\n' :: t) = (l :: (splitLines t).1, (splitLines t).2) := by
  induction l with
  | nil => simp [splitLines]
  | cons c l ih =>
    have hc : ¬ c = '\n' := fun e => h (by simp [e])
    have hl : '\n' ∉ l := fun m => h (by simp [m])
    simp [splitLines, ih hl, hc]

theorem processLines_append (st : StreamState) (a b : List (List Char)) :
    processLines st (a ++ b) =
      match processLines st a with
      | none => none
      | some st2 => processLines st2 b := by
  induction a generalizing st with
  | nil => simp [processLines]
  | cons l a ih =>
    simp only [List.cons_append, processLines]
    cases h : processLine st (trimChars l) with
    | none => rfl
    | some st2 => exact ih st2

theorem splitLines_append (b c : List Char) :
    splitLines (b ++ c) =
      ((splitLines b).1 ++ (splitLines ((splitLines b).2 ++ c)).1,
       (splitLines ((splitLines b).2 ++ c)).2) := by
  induction b with
  | nil => simp [splitLines]
  | cons ch b ih =>
    by_cases hch : ch = '\n'
    · subst hch
      simp [splitLines, ih]
    · rcases hb : (splitLines b).1 with _ | ⟨l, ls⟩
      · have hrem : splitLines (ch :: b) = ([], ch :: (splitLines b).2) := by
          simp [splitLines, hch, hb]
        rw [List.cons_append]
        conv_lhs => rw [splitLines]
        rw [ih, hb, hrem]
        simp [hch, splitLines]
      · have hsb : splitLines (ch :: b) = ((ch :: l) :: ls, (splitLines b).2) := by
          simp [splitLines, hch, hb]
        rw [List.cons_append]
        conv_lhs => rw [splitLines]
        rw [ih, hb, hsb]
        simp [hch]

theorem drainBuf_append (b c : List Char) (st : StreamState) :
    feedChunk (drainBuf b st) c = drainBuf (b ++ c) st := by
  unfold feedChunk drainBuf
  rw [splitLines_append b c, processLines_append]
  cases h : processLines st (splitLines b).1 with
  | none => simp [h]
  | some st2 => simp [h]

theorem feedChunk_foldl (chs : List (List Char)) :
    ∀ (b : List Char) (st : StreamState),
      chs.foldl feedChunk (drainBuf b st) = drainBuf (b ++ chs.flatten) st := by
  induction chs with
  | nil => intro b st; simp
  | cons c chs ih =>
    intro b st
    simp only [List.foldl_cons, List.flatten_cons]
    rw [drainBuf_append b c st, ih (b ++ c) st, List.append_assoc]

theorem drainBuf_nil (st : StreamState) : drainBuf [] st = some ([], st) := rfl

/-- streamRun without cancellation, as a single drain of the concatenation of
the lossily decoded chunks. -/
theorem streamRun_flatten (h0 : List Message) (chunks : List (List Nat)) :
    streamRun false h0 chunks =
      match drainBuf (chunks.map utf8LossyDecode).flatten
              (initialStreamState h0) with
      | none => none
      | some (buf, st) => some (finalizeStream buf st) := by
  unfold streamRun
  have hfold :
      chunks.foldl
          (fun acc ch =>
            if false then acc else feedChunk acc (utf8LossyDecode ch))
          (some ([], initialStreamState h0)) =
        drainBuf (chunks.map utf8LossyDecode).flatten (initialStreamState h0) := by
    have hfun :
        (fun (acc : Option (List Char × StreamState)) ch =>
            if false then acc else feedChunk acc (utf8LossyDecode ch)) =
          (fun acc ch => feedChunk acc (utf8LossyDecode ch)) := by
      funext acc ch
      simp
    rw [hfun, ← List.foldl_map utf8LossyDecode feedChunk chunks
        (some ([], initialStreamState h0)),
      ← drainBuf_nil (initialStreamState h0),
      feedChunk_foldl (chunks.map utf8LossyDecode) [] (initialStreamState h0)]
    simp
  rw [hfold]

theorem trim_done : trimChars doneMarker = doneMarker := by decide

theorem processLine_done (st : StreamState) :
    processLine st doneMarker = some st := by
  have hcond : (dataMarker.isPrefixOf doneMarker && !(doneMarker == doneMarker))
      = false := by decide
  simp [processLine, hcond]

theorem drainBuf_done (t : List Char) (st : StreamState) :
    drainBuf (doneMarker ++ '\n' :: t) st = drainBuf t st := by
  unfold drainBuf
  rw [splitLines_line doneMarker t (by decide)]
  simp only [processLines, trim_done, processLine_done]

theorem scanStep_skip (query : String) (docs : List Document)
    (h : ∀ d ∈ docs, containsStr query ("@" ++ d.id) = false) :
    ∀ acc : List String × String, docs.foldl (scanStep query) acc = acc := by
  induction docs with
  | nil => intro acc; rfl
  | cons d ds ih =>
    intro acc
    have hd : containsStr query ("@" ++ d.id) = false := h d (by simp)
    have hds : ∀ e ∈ ds, containsStr query ("@" ++ e.id) = false :=
      fun e he => h e (by simp [he])
    have hstep : scanStep query acc d = acc := by
      simp [scanStep, hd]
    rw [List.foldl_cons, hstep, ih hds]

theorem setLastContentLib_append (l : List LibMessage) (m : LibMessage)
    (txt : String) :
    setLastContentLib (l ++ [m]) txt = l ++ [{ m with content := txt }] := by
  induction l with
  | nil => rfl
  | cons a l ih =>
    cases l with
    | nil => rfl
    | cons b l2 =>
      simp only [List.cons_append, setLastContentLib] at ih ⊢
      exact congrArg (fun x => a :: x) ih

/-! ## Claim theorems -/

/-- Claim C1: the spec requires that with stream_enabled=false a raised
cancellation flag discards the response (no assistant message appended,
nothing published).  The code violates this: the non-streaming branch
(app.rs 390-408) never reads the flag, so the committed result is identical
for every flag value, and with the flag raised the assistant message is still
appended and published. -/
theorem nonstreaming_commit_ignores_cancel :
    (∀ (cancel : Bool) (h : List Message) (j : ChatResponse),
        nonStreamingFinish cancel h j = nonStreamingFinish false h j) ∧
    nonStreamingFinish true histUC respHi =
      some (histUC ++
        [{ role := "assistant", content := "Hi", metrics := metricsDefault }]) := by
  constructor
  · intro cancel h j
    rfl
  · rfl

/-- Claim C2 counterexample: a byte stream carrying the sentinel line
data: [DONE] followed by a buffered delta line.  The claim says decoding
terminates at the sentinel and no later delta is appended, so the final
assistant content would be empty; in fact the later delta IS decoded and
appended, giving content "X". -/
theorem done_not_terminating_cex :
    lastContent (streamRun false [] [doneThenDeltaBytes]) = some "X" ∧
    "X" ≠ "" := by
  exact ⟨by decide, by decide⟩

/-- Claim C2 amended: the sentinel line data: [DONE] emits no record and
leaves the decoder state unchanged, but it does not terminate decoding: the
run behaves exactly as if the sentinel line were absent, so any data: lines
after it are still decoded (app.rs 330 merely filters the sentinel out;
the comment at app.rs 372 shows the continuation is intentional, to catch
metrics sent after the sentinel). -/
theorem done_line_skipped_decoding_continues :
    ∀ (rest : List Nat) (h0 : List Message),
      streamRun false h0 [doneLineBytes ++ rest] = streamRun false h0 [rest] := by
  intro rest h0
  rw [streamRun_flatten, streamRun_flatten]
  have hd : utf8LossyDecode (doneLineBytes ++ rest) =
      doneMarker ++ '\n' :: utf8LossyDecode rest := by
    rw [utf8_ascii_append doneLineBytes rest (by decide)]
    have hm : doneLineBytes.map (fun n => Char.ofNat n) =
        doneMarker ++ ['\n'] := by decide
    rw [hm, List.append_assoc]
    rfl
  simp only [List.map_cons, List.map_nil, List.flatten_cons, List.flatten_nil,
    List.append_nil]
  rw [hd, drainBuf_done]

/-- Claim C3: the spec requires a synthetic system-role error message in the
transcript on any transport failure.  The code violates this: the Err case of
the transport call and a malformed non-streaming body are silently dropped
(app.rs has no else-branch at line 307); nothing is published and only the
loading flag is cleared.  (The earlier snapshot, src/lib.rs 428-437, did
append the system error message the spec describes.) -/
theorem transport_failure_appends_nothing :
    ∀ (cancel : Bool) (e : String) (hist : List Message),
      runChatOutcome cancel hist (.failed e) = (none, false) ∧
      runChatOutcome cancel hist (.fullOk none) = (none, false) := by
  intro cancel e hist
  exact ⟨rfl, rfl⟩

/-- Claim C4 counterexample: a publish by the update closure with a derived
title ("Hello") overwrites a session title ("My Custom Title") that differs
from the placeholder "New Chat" at commit time, contradicting the claim that
such titles are never overwritten. -/
theorem title_forced_cex :
    ("My Custom Title" : String) ≠ "New Chat" ∧
    customSess.title = "My Custom Title" ∧
    (updateClosure "s1" (some "Hello") [customSess] []).map
        (fun c => c.title) = ["Hello"] := by
  exact ⟨by decide, rfl, by decide⟩

/-- Claim C4 amended: when run_chat derived a title at send time
(title_override = some t), every publish of that run forces the target
session's title to t, overwriting whatever title it has at commit time -
including one differing from the placeholder (the code comment at app.rs 299
says FORCE the title back).  When no title was derived (title_override =
none), publishes never change any title. -/
theorem publish_title_behavior :
    ∀ (cid t : String) (msgs : List Message) (all : List ChatSession),
      ((updateClosure cid none all msgs).map (fun c => c.title) =
        all.map (fun c => c.title)) ∧
      ((∃ c ∈ all, c.id = cid) →
        ∃ c ∈ updateClosure cid (some t) all msgs,
          c.id = cid ∧ c.title = t ∧ c.messages = msgs) := by
  intro cid t msgs all
  constructor
  · induction all with
    | nil => rfl
    | cons d ds ih =>
      simp only [updateClosure, updateFirst] at ih ⊢
      cases hd : (d.id == cid) with
      | true => simp
      | false => simp [ih]
  · intro hex
    induction all with
    | nil =>
      rcases hex with ⟨c, hc, _⟩
      cases hc
    | cons d ds ih =>
      rcases hex with ⟨c, hc, hid⟩
      by_cases hd : d.id = cid
      · refine ⟨{ d with messages := msgs, title := t }, ?_, hd, rfl, rfl⟩
        simp only [updateClosure, updateFirst]
        rw [show (d.id == cid) = true from beq_iff_eq.mpr hd]
        simp
      · rcases List.mem_cons.mp hc with hceq | hcds
        · exact absurd (hceq ▸ hid) hd
        · rcases ih ⟨c, hcds, hid⟩ with ⟨c2, hc2, h2⟩
          refine ⟨c2, ?_, h2⟩
          simp only [updateClosure, updateFirst]
          rw [show (d.id == cid) = false from beq_eq_false_iff_ne.mpr hd]
          simp only [updateClosure] at hc2
          simp [hc2]

/-- Witness for the amended C4 theorem at a concrete store. -/
theorem publish_title_behavior_witness :
    (∃ c ∈ [customSess], c.id = "s1") ∧
    ∃ c ∈ updateClosure "s1" (some "T") [customSess] [],
      c.id = "s1" ∧ c.title = "T" ∧ c.messages = [] :=
  ⟨⟨customSess, by simp, rfl⟩,
   (publish_title_behavior "s1" "T" [] [customSess]).2 ⟨customSess, by simp, rfl⟩⟩

/-- Claim C5 counterexample: two chunkings of the same byte stream (a delta
line whose content is the two-byte UTF-8 character U+00E9) with the chunk
boundary inside the character.  Because each chunk is decoded independently
with from_utf8_lossy (app.rs 326), the split run sees two replacement
characters where the unsplit run sees U+00E9, so the decoder's output is NOT
invariant under rechunking of the same byte stream. -/
theorem rechunking_not_invariant_cex :
    eAcuteChunk1 ++ eAcuteChunk2 = eAcuteLine ∧
    lastContent (streamRun false [] [eAcuteLine]) = some "é" ∧
    lastContent (streamRun false [] [eAcuteChunk1, eAcuteChunk2]) =
      some (String.mk [replChar, replChar]) ∧
    streamRun false [] [eAcuteLine] ≠
      streamRun false [] [eAcuteChunk1, eAcuteChunk2] := by
  exact ⟨by decide, by decide, by decide, by decide⟩

/-- Claim C5 amended: the decoder's output is invariant under every
rechunking whose chunk boundaries all fall on UTF-8 character boundaries,
i.e. whenever each chunk is well-formed UTF-8 (the encoding of some character
sequence): any two such chunkings of the same byte stream give the same final
result.  Invariance fails only when a chunk boundary splits a multi-byte
character, as the counterexample shows, because each chunk is decoded
independently with from_utf8_lossy (app.rs 326). -/
theorem rechunking_invariant_utf8_boundaries :
    ∀ (c1 c2 : List (List Nat)) (h0 : List Message),
      (∀ ch ∈ c1, ∃ cs, ch = utf8Encode cs) →
      (∀ ch ∈ c2, ∃ cs, ch = utf8Encode cs) →
      c1.flatten = c2.flatten →
      streamRun false h0 c1 = streamRun false h0 c2 := by
  intro c1 c2 h0 h1 h2 hj
  rw [streamRun_flatten, streamRun_flatten,
    utf8_valid_flatten c1 h1, utf8_valid_flatten c2 h2, hj]

/-- Witness for the amended C5 theorem: the U+00E9 delta line sent whole
versus split at the character boundary right after the two-byte U+00E9
sequence - a boundary-respecting, non-ASCII rechunking. -/
theorem rechunking_invariant_utf8_boundaries_witness :
    ((∀ ch ∈ [eAcuteLine], ∃ cs, ch = utf8Encode cs) ∧
     (∀ ch ∈ [eAcuteSplitA, eAcuteSplitB], ∃ cs, ch = utf8Encode cs) ∧
     ([eAcuteLine] : List (List Nat)).flatten =
       ([eAcuteSplitA, eAcuteSplitB] : List (List Nat)).flatten) ∧
    streamRun false [] [eAcuteLine] =
      streamRun false [] [eAcuteSplitA, eAcuteSplitB] := by
  have h1 : ∀ ch ∈ [eAcuteLine], ∃ cs, ch = utf8Encode cs := by
    intro ch hch
    simp only [List.mem_singleton] at hch
    subst hch
    exact ⟨eAcuteLineChars, by decide⟩
  have h2 : ∀ ch ∈ [eAcuteSplitA, eAcuteSplitB], ∃ cs, ch = utf8Encode cs := by
    intro ch hch
    simp only [List.mem_cons, List.mem_singleton, List.not_mem_nil,
      or_false] at hch
    rcases hch with rfl | rfl
    · exact ⟨eAcuteSplitAChars, by decide⟩
    · exact ⟨eAcuteSplitBChars, by decide⟩
  have h3 : ([eAcuteLine] : List (List Nat)).flatten =
      ([eAcuteSplitA, eAcuteSplitB] : List (List Nat)).flatten := by decide
  exact ⟨⟨h1, h2, h3⟩,
    rechunking_invariant_utf8_boundaries [eAcuteLine]
      [eAcuteSplitA, eAcuteSplitB] [] h1 h2 h3⟩

/-- Claim C6: the spec requires the request to carry the model currently
selected in settings.  The code violates this: the request does carry the
full message list, temperature 0.7 and the stream flag from settings, but its
model field is the hardcoded string at app.rs 289 (the selected_model
expression is commented out), so with the default settings the request model
differs from settings.selected_model. -/
theorem chat_request_model_hardcoded :
    ∀ (set : AppSettings) (msgs : List Message),
      (buildChatRequest set msgs).messages = msgs ∧
      (buildChatRequest set msgs).temperature = (7 : Rat) / 10 ∧
      (buildChatRequest set msgs).stream = set.stream_enabled ∧
      (buildChatRequest set msgs).model = hardcodedModel ∧
      hardcodedModel ≠ appSettingsDefault.selected_model := by
  intro set msgs
  exact ⟨rfl, rfl, rfl, rfl, by decide⟩

/-- Claim C7: manual-mode context building.  For the stored document
doc123/notes.txt, the input "Summarize @doc123" yields the display text
"Summarize [Document: notes.txt]" and an LLM context containing the
document's full content; and for any document list and input that contains
no @id reference to a stored document, the context is empty and the display
text is the unchanged input. -/
theorem manual_context_display :
    (build_manual_context_with_display [notesDoc] "Summarize @doc123" =
        ("Document context:\n\n=== Document: notes.txt (Type: txt, Chunks: 1) ===\nThe full document content\n\n",
         "Summarize [Document: notes.txt]") ∧
      containsStr
        (build_manual_context_with_display [notesDoc] "Summarize @doc123").1
        notesDoc.full_content = true) ∧
    ∀ (docs : List Document) (query : String),
      (∀ d ∈ docs, containsStr query ("@" ++ d.id) = false) →
      build_manual_context_with_display docs query = ("", query) := by
  constructor
  · exact ⟨by decide, by decide⟩
  · intro docs query h
    unfold build_manual_context_with_display
    by_cases hd : docs.isEmpty
    · simp [hd]
    · simp only [hd, if_false, Bool.false_eq_true]
      rw [scanStep_skip query docs h ([], query)]
      simp

/-- Witness for the no-reference case of the C7 theorem. -/
theorem manual_context_display_witness :
    (∀ d ∈ [notesDoc], containsStr "hello there" ("@" ++ d.id) = false) ∧
    build_manual_context_with_display [notesDoc] "hello there" =
      ("", "hello there") :=
  ⟨by decide, manual_context_display.2 [notesDoc] "hello there" (by decide)⟩

/-- Claim C8: on_edit_save (lib.rs 566-577) truncates the transcript to the
messages at indices 0..idx (length idx+1), replaces the content of the
message at idx with the new text, and the resulting list is exactly what is
handed to the completion flow. -/
theorem edit_truncates_and_replaces :
    ∀ (msgs : List LibMessage) (idx : Nat) (txt : String)
      (h : idx < msgs.length),
      on_edit_save msgs idx txt =
        msgs.take idx ++ [{ msgs.get ⟨idx, h⟩ with content := txt }] ∧
      (on_edit_save msgs idx txt).length = idx + 1 := by
  intro msgs idx txt h
  have htake : msgs.take (idx + 1) = msgs.take idx ++ [msgs.get ⟨idx, h⟩] := by
    rw [List.take_succ, List.getElem?_eq_getElem h]
    rfl
  have hmain : on_edit_save msgs idx txt =
      msgs.take idx ++ [{ msgs.get ⟨idx, h⟩ with content := txt }] := by
    unfold on_edit_save
    rw [if_pos h, htake, setLastContentLib_append]
  refine ⟨hmain, ?_⟩
  rw [hmain]
  simp [List.length_take, Nat.min_eq_left (Nat.le_of_lt h)]

/-- Witness for the C8 theorem: editing index 1 of a three-message
transcript. -/
theorem edit_truncates_and_replaces_witness :
    1 < ([libA, libB, libC] : List LibMessage).length ∧
    on_edit_save [libA, libB, libC] 1 "edited question" =
      [libA, { libB with content := "edited question" }] ∧
    (on_edit_save [libA, libB, libC] 1 "edited question").length = 2 := by
  have h : 1 < ([libA, libB, libC] : List LibMessage).length := by decide
  have h2 := edit_truncates_and_replaces [libA, libB, libC] 1 "edited question" h
  exact ⟨h, by rw [h2.1]; rfl, h2.2⟩

/-- Claim C9: the spec's implicit safety claim is that a successfully parsed
stream line is always handled without panicking, including one whose choices
array is empty.  The code violates this: data with an empty choices array
parses successfully, and json.choices[0] (app.rs 346) then panics (index out
of bounds), modelled by processLine returning none, which aborts the whole
run. -/
theorem empty_choices_line_panics :
    parseStreamResponse emptyChoicesPayload =
      some { choices := [], id := none, created := none, model := none,
             system_fingerprint := none, usage := none, timings := none } ∧
    processLine (initialStreamState []) emptyChoicesLine = none ∧
    streamRun false [] [strBytes "data: \x7b\"choices\":[]\x7d\n"] = none := by
  exact ⟨by decide, by decide, by decide⟩

/-- Claim C10: on_select_chat with a target different from the active id:
if the first session bearing the active id has a transcript of exactly one
system message, selection removes it from the collection; otherwise the
collection is unchanged; in both cases the active id becomes the target. -/
theorem select_chat_prunes_empty_previous :
    ∀ (chats : List ChatSession) (cur tgt : String), cur ≠ tgt →
      ((∀ prev, chats.find? (fun c => c.id == cur) = some prev →
          ((∀ m, prev.messages = [m] → m.role = "system" →
              on_select_chat chats cur tgt =
                (chats.filter (fun c => !(c.id == cur)), tgt)) ∧
            ((¬ ∃ m, prev.messages = [m] ∧ m.role = "system") →
              on_select_chat chats cur tgt = (chats, tgt)))) ∧
       (chats.find? (fun c => c.id == cur) = none →
          on_select_chat chats cur tgt = (chats, tgt))) := by
  intro chats cur tgt hne
  have hne2 : (cur == tgt) = false := beq_eq_false_iff_ne.mpr hne
  constructor
  · intro prev hfind
    constructor
    · intro m hm hrole
      have hempty : isEmptyChat prev = true := by
        simp [isEmptyChat, hm, hrole]
      unfold on_select_chat
      rw [hne2]
      simp [hfind, hempty]
    · intro hnot
      have hempty : isEmptyChat prev = false := by
        unfold isEmptyChat
        cases hm : prev.messages with
        | nil => simp
        | cons m rest =>
          cases rest with
          | nil =>
            have hrole : m.role ≠ "system" := by
              intro hr
              exact hnot ⟨m, hm, hr⟩
            simp [beq_eq_false_iff_ne.mpr hrole]
          | cons m2 rest2 => simp
      unfold on_select_chat
      rw [hne2]
      simp [hfind, hempty]
  · intro hfind
    unfold on_select_chat
    rw [hne2]
    simp [hfind]

/-- Witness for the C10 theorem: selecting session b away from the freshly
created session a removes a. -/
theorem select_chat_prunes_empty_previous_witness :
    (("a" : String) ≠ "b") ∧
    on_select_chat [sysOnlySess, talkedSess] "a" "b" = ([talkedSess], "b") := by
  have h := select_chat_prunes_empty_previous [sysOnlySess, talkedSess] "a" "b"
    (by decide)
  have hfind : ([sysOnlySess, talkedSess].find? (fun c => c.id == "a")) =
      some sysOnlySess := by decide
  have h2 := (h.1 sysOnlySess hfind).1 sysMsg rfl rfl
  exact ⟨by decide, by rw [h2]; decide⟩

end SWI
